import Mathlib

/-!
Shallow embedding of the websocket hub of campus-canvas-chat-backend
(`websocket` package: `Hub`, `Client`, `WSMessage`, the register /
unregister / send / broadcast operations, and the admission handler
`HandleWebSocket`).

Modelling conventions:
* Go `*Client` pointer identity is an explicit `cid : Nat`; the mutable
  buffered channel `Client.Send` lives in a heap `chans : List (Nat × Chan)`
  keyed by `cid`.
* Go maps are association lists with unique keys (`alookup` / `upsert` /
  `aerase`); `Hub.Clients` (a set) is a `List Client`.
* A buffered channel is a `Chan`: a bounded buffer plus a `closed` flag.
  A Go send on a closed channel panics, as does `close` of a closed
  channel; operations that can panic return `Option Hub`, `none` being a
  panic of the hub goroutine.
* Payload bytes are `Bytes`: either `raw s` (bytes on which
  `json.Unmarshal` into `WSMessage` fails) or `valid w` (the
  `json.Marshal` encoding of the envelope `w`).
-/

namespace CampusChat

/-- The `WSMessage` JSON envelope of the Go source.  The `data` field has
Go type `interface{}`; it is routed around opaquely, so an opaque
`Option String` stands in for it. -/
structure WSMessage where
  type : String
  room_id : Int
  user_id : Int
  username : String
  content : String
  timestamp : Int
  data : Option String
deriving DecidableEq, Repr

/-- A byte payload: either bytes that fail to unmarshal as a `WSMessage`,
or the marshalled form of a `WSMessage`. -/
inductive Bytes where
  | raw (s : String)
  | valid (w : WSMessage)
deriving DecidableEq, Repr

/-- `json.Unmarshal(message, &wsMsg)` of the source. -/
def jsonUnmarshal : Bytes → Option WSMessage
  | .raw _ => none
  | .valid w => some w

/-- `json.Marshal(wsMsg)` of the source. -/
def jsonMarshal (w : WSMessage) : Bytes := .valid w

/-- A Go buffered channel of `[]byte` (`Client.Send`): bounded buffer,
capacity fixed at creation, plus a closed flag. -/
structure Chan where
  buf : List Bytes
  closed : Bool
  cap : Nat
deriving DecidableEq, Repr

/-- A fresh channel, `make(chan []byte, cap)`. -/
def freshChan (c : Nat) : Chan := { buf := [], closed := false, cap := c }

/-- The `Client` struct: pointer identity `cid`, owning user id, optional
room id.  The mutable `Send` channel is held in the hub heap under `cid`;
the socket itself is outside the model. -/
structure Client where
  cid : Nat
  userID : Int
  roomID : Option Int
deriving DecidableEq, Repr

/-- Association-list lookup, the read of a Go map. -/
def alookup [DecidableEq κ] : List (κ × β) → κ → Option β
  | [], _ => none
  | p :: ps, k => if p.1 = k then some p.2 else alookup ps k

/-- Association-list erase, `delete(m, k)` on a Go map. -/
def aerase [DecidableEq κ] (l : List (κ × β)) (k : κ) : List (κ × β) :=
  l.filter (fun p => !decide (p.1 = k))

/-- Association-list insert/replace, `m[k] = v` on a Go map. -/
def upsert [DecidableEq κ] (l : List (κ × β)) (k : κ) (v : β) : List (κ × β) :=
  aerase l k ++ [(k, v)]

/-- The `Hub` struct: `Clients`, `Users`, `Rooms`, and the heap of the
clients' `Send` channels keyed by client identity. -/
structure Hub where
  clients : List Client
  users : List (Int × Client)
  rooms : List (Int × List Client)
  chans : List (Nat × Chan)
deriving DecidableEq, Repr

/-- `NewHub()`. -/
def hubInit : Hub := { clients := [], users := [], rooms := [], chans := [] }

/-- The current state of a client's `Send` channel. -/
def getChan (h : Hub) (cid : Nat) : Chan :=
  (alookup h.chans cid).getD { buf := [], closed := false, cap := 0 }

/-- Write back the state of a client's `Send` channel. -/
def setChan (h : Hub) (cid : Nat) (ch : Chan) : Hub :=
  { h with chans := upsert h.chans cid ch }

/-- The member set `h.Rooms[r]` (empty when the key is absent). -/
def roomList (h : Hub) (r : Int) : List Client :=
  (alookup h.rooms r).getD []

/-- `registerClient`: `Clients[c] = true`; `Users[c.UserID] = c`; if the
client has a room id, insert into `Rooms[*c.RoomID]` (creating the room
set).  The redis presence calls are external side effects with no hub
state. -/
def registerClient (h : Hub) (c : Client) : Hub :=
  let clients := if c ∈ h.clients then h.clients else h.clients ++ [c]
  let users := upsert h.users c.userID c
  match c.roomID with
  | some r =>
      let room := roomList h r
      let room2 := if c ∈ room then room else room ++ [c]
      { h with clients := clients, users := users, rooms := upsert h.rooms r room2 }
  | none => { h with clients := clients, users := users }

/-- `unregisterClient`: guarded by membership in `Clients`; deletes from
`Clients`, closes `Send` (a Go panic — `none` — if already closed),
deletes the `Users` entry for the client's user id unconditionally, and
removes the client from its room, dropping the room key when the set
becomes empty. -/
def unregisterClient (h : Hub) (c : Client) : Option Hub :=
  if c ∈ h.clients then
    if (getChan h c.cid).closed then none
    else
      let h1 := setChan h c.cid { getChan h c.cid with closed := true }
      let h2 := { h1 with
        clients := h1.clients.filter (fun x => !decide (x = c)),
        users := aerase h1.users c.userID }
      match c.roomID with
      | none => some h2
      | some r =>
        match alookup h2.rooms r with
        | none => some h2
        | some room =>
          let room2 := room.filter (fun x => !decide (x = c))
          if room2.isEmpty then some { h2 with rooms := aerase h2.rooms r }
          else some { h2 with rooms := upsert h2.rooms r room2 }
  else some h

/-- Result of `select { case ch <- m: ... default: ... }` on a buffered
channel: `sent` takes the send case, `full` the default case, `panic`
a send on a closed channel. -/
inductive SendRes where
  | panic
  | sent (ch : Chan)
  | full
deriving Repr

/-- Non-blocking send attempt on a buffered channel. -/
def chanTrySend (ch : Chan) (m : Bytes) : SendRes :=
  if ch.closed then .panic
  else if ch.buf.length < ch.cap then .sent { ch with buf := ch.buf ++ [m] }
  else .full

/-- `SendPrivateMessage(userID, message)`: look up `Users[userID]`; if
present try a non-blocking send; on a full queue close the channel and
delete the client from `Clients` and `Users` (but not from its room). -/
def sendPrivateMessage (h : Hub) (uid : Int) (m : Bytes) : Option Hub :=
  match alookup h.users uid with
  | none => some h
  | some c =>
    match chanTrySend (getChan h c.cid) m with
    | .panic => none
    | .sent ch => some (setChan h c.cid ch)
    | .full =>
      let h1 := setChan h c.cid { getChan h c.cid with closed := true }
      some { h1 with
        clients := h1.clients.filter (fun x => !decide (x = c)),
        users := aerase h1.users uid }

/-- `SendToUser(userID, message)`: like `SendPrivateMessage` but the
slow-consumer branch also removes the client from its room's member set
(without dropping an emptied room key). -/
def sendToUser (h : Hub) (uid : Int) (m : Bytes) : Option Hub :=
  match alookup h.users uid with
  | none => some h
  | some c =>
    match chanTrySend (getChan h c.cid) m with
    | .panic => none
    | .sent ch => some (setChan h c.cid ch)
    | .full =>
      let h1 := setChan h c.cid { getChan h c.cid with closed := true }
      let h2 := { h1 with
        clients := h1.clients.filter (fun x => !decide (x = c)),
        users := aerase h1.users uid }
      some (match c.roomID with
        | some r =>
          match alookup h2.rooms r with
          | some room => { h2 with rooms := upsert h2.rooms r (room.filter (fun x => !decide (x = c))) }
          | none => h2
        | none => h2)

/-- The `for client := range room` loop shared by `BroadcastToRoom` and
`broadcastMessage`: try a non-blocking send to each member; on a full
queue close the channel and delete the client from `Clients` and from
the room's member set (but not from `Users`). -/
def bcastLoop (rid : Int) (m : Bytes) : List Client → Hub → Option Hub
  | [], h => some h
  | c :: rest, h =>
    match chanTrySend (getChan h c.cid) m with
    | .panic => none
    | .sent ch => bcastLoop rid m rest (setChan h c.cid ch)
    | .full =>
      let h1 := setChan h c.cid { getChan h c.cid with closed := true }
      let h2 := { h1 with
        clients := h1.clients.filter (fun x => !decide (x = c)),
        rooms := upsert h1.rooms rid ((roomList h1 rid).filter (fun x => !decide (x = c))) }
      bcastLoop rid m rest h2

/-- `BroadcastToRoom(roomID, message)`: iterate over `Rooms[roomID]`
(nothing when the key is absent). -/
def broadcastToRoom (h : Hub) (rid : Int) (m : Bytes) : Option Hub :=
  match alookup h.rooms rid with
  | none => some h
  | some room => bcastLoop rid m room h

/-- `broadcastMessage(message)`: unmarshal the bytes; on failure log and
return; otherwise run the same loop as `BroadcastToRoom` on
`Rooms[wsMsg.RoomID]`, sending the original bytes. -/
def broadcastMessage (h : Hub) (m : Bytes) : Option Hub :=
  match jsonUnmarshal m with
  | none => some h
  | some w => broadcastToRoom h w.room_id m

/-- The per-frame body of `readPump`: unmarshal the inbound frame (skip
the frame on failure), overwrite `UserID` with the connection's user id,
overwrite `RoomID` with the connection's room id only when the connection
has one, re-marshal, and hand the result to the hub's broadcast channel. -/
def handleInboundFrame (c : Client) (raw : Bytes) : Option Bytes :=
  match jsonUnmarshal raw with
  | none => none
  | some w =>
    let w1 := { w with user_id := c.userID }
    let w2 := match c.roomID with
      | some r => { w1 with room_id := r }
      | none => w1
    some (jsonMarshal w2)

/-- A `readPump` frame followed by the hub processing it: what the hub
state becomes after one inbound frame from connection `c`. -/
def handleInbound (h : Hub) (c : Client) (raw : Bytes) : Option Hub :=
  match handleInboundFrame c raw with
  | none => some h
  | some m => broadcastMessage h m

/-- A query-string parameter as `HandleWebSocket` sees it: absent, present
but failing `strconv.ParseInt`, or a parsed value. -/
inductive Param where
  | absent
  | malformed
  | val (n : Int)
deriving DecidableEq, Repr

/-- The request data `HandleWebSocket` reads. -/
structure WSRequest where
  user_id : Param
  room_id : Param
deriving DecidableEq, Repr

/-- The database reads `HandleWebSocket` performs. -/
structure DBEnv where
  userExists : Int → Bool
  roomExists : Int → Bool
  isMember : Int → Int → Bool

/-- The error responses of `HandleWebSocket`, in source order. -/
inductive AdmissionError where
  | missingUserID
  | invalidUserID
  | unknownUser
  | invalidRoomID
  | unknownRoom
  | notAMember
deriving DecidableEq, Repr

/-- `HandleWebSocket`: validate user id (presence, parse, existence),
then the optional room id (parse, room existence, membership); only on
full success upgrade, create the client with a fresh 256-slot channel,
and register it.  Returns the admitted client or the error, paired with
the resulting hub state. -/
def handleWebSocket (env : DBEnv) (req : WSRequest) (h : Hub) (fresh : Nat) :
    Except AdmissionError Client × Hub :=
  match req.user_id with
  | .absent => (.error .missingUserID, h)
  | .malformed => (.error .invalidUserID, h)
  | .val uid =>
    if env.userExists uid then
      match req.room_id with
      | .malformed => (.error .invalidRoomID, h)
      | .absent =>
        let c : Client := { cid := fresh, userID := uid, roomID := none }
        let h1 := { h with chans := upsert h.chans fresh (freshChan 256) }
        (.ok c, registerClient h1 c)
      | .val rid =>
        if env.roomExists rid then
          if env.isMember rid uid then
            let c : Client := { cid := fresh, userID := uid, roomID := some rid }
            let h1 := { h with chans := upsert h.chans fresh (freshChan 256) }
            (.ok c, registerClient h1 c)
          else (.error .notAMember, h)
        else (.error .unknownRoom, h)
    else (.error .unknownUser, h)

/-! ## Routing-table consistency invariant (spec §3) -/

/-- The three-view consistency invariant of the spec: a connection appears
as a value of `byUser` iff it is in `allConnections`, and it appears in
`byRoom[r]` iff its room id is `r` and it is in `allConnections`. -/
def Inv (h : Hub) : Prop :=
  (∀ c ∈ h.clients, ∃ p ∈ h.users, p.2 = c) ∧
  (∀ p ∈ h.users, p.2 ∈ h.clients) ∧
  (∀ p ∈ h.rooms, ∀ c ∈ p.2, c.roomID = some p.1 ∧ c ∈ h.clients) ∧
  (∀ c ∈ h.clients, ∀ r ∈ c.roomID.toList, c ∈ roomList h r)

instance (h : Hub) : Decidable (Inv h) := by
  unfold Inv; infer_instance

/-- Structural well-formedness of the hub representation: map keys are
unique, `Users` keys name their value's user id, and the client lists are
duplicate-free.  These hold of every hub the Go code builds (maps have
unique keys; `Users[c.UserID] = c`). -/
def WF (h : Hub) : Prop :=
  (∀ p ∈ h.users, p.1 = p.2.userID) ∧
  (h.users.map Prod.fst).Nodup ∧
  (h.rooms.map Prod.fst).Nodup ∧
  h.clients.Nodup ∧
  (∀ p ∈ h.rooms, p.2.Nodup)

instance (h : Hub) : Decidable (WF h) := by
  unfold WF; infer_instance

/-- One hub event-loop input of the kinds claim C1 ranges over. -/
inductive Ev where
  | reg (c : Client)
  | unreg (c : Client)
deriving DecidableEq, Repr

/-- One step of the hub event loop on a register/unregister event. -/
def step (h : Hub) : Ev → Option Hub
  | .reg c => some (registerClient h c)
  | .unreg c => unregisterClient h c

/-- A trace of register/unregister events in which no `Register` targets
a user id that already has a different live connection (the regime in
which the consistency invariant is preserved).  A panicking step ends the
trace. -/
def goodTrace : Hub → List Ev → Bool
  | _, [] => true
  | h, .reg c :: es =>
    decide (alookup h.users c.userID = none ∨ alookup h.users c.userID = some c) &&
      goodTrace (registerClient h c) es
  | h, .unreg c :: es =>
    match unregisterClient h c with
    | none => true
    | some h1 => goodTrace h1 es

/-- `Inv` holds after every completed step of the trace. -/
def invAlong : Hub → List Ev → Bool
  | _, [] => true
  | h, e :: es =>
    match step h e with
    | none => true
    | some h1 => decide (Inv h1) && invAlong h1 es

/-! ## Concrete states used in witnesses and counterexamples -/

/-- Two distinct connections owned by the same user id 7. -/
def cDup1 : Client := { cid := 1, userID := 7, roomID := none }

def cDup2 : Client := { cid := 2, userID := 7, roomID := none }

/-- A hub heap holding fresh 256-slot channels for cids 1 and 2. -/
def hPair : Hub := { hubInit with chans := [(1, freshChan 256), (2, freshChan 256)] }

/-- Two room-scoped connections of room 3 owned by the same user. -/
def oldConn : Client := { cid := 1, userID := 7, roomID := some 3 }

def newConn : Client := { cid := 2, userID := 7, roomID := some 3 }

/-- Clients and a trace for the safe-trace witness. -/
def cTr1 : Client := { cid := 1, userID := 7, roomID := some 3 }

def cTr2 : Client := { cid := 2, userID := 8, roomID := some 3 }

def esTr : List Ev := [.reg cTr1, .reg cTr2, .unreg cTr1, .unreg cTr2]

/-- A connection with no room binding. -/
def cNoRoom : Client := { cid := 3, userID := 9, roomID := none }

/-- An inbound frame whose content claims user 1 and room 42. -/
def frameClaiming42 : WSMessage :=
  { type := "message", room_id := 42, user_id := 1, username := "mallory",
    content := "hi", timestamp := 0, data := none }

/-- A room-1 client whose 1-slot queue already holds a pending message. -/
def slowClient : Client := { cid := 1, userID := 5, roomID := some 1 }

def mPend : Bytes := .raw "pending"

def mNew : Bytes := .raw "new"

def hSlow : Hub :=
  { clients := [slowClient], users := [(5, slowClient)], rooms := [(1, [slowClient])],
    chans := [(1, { buf := [mPend], closed := false, cap := 1 })] }

/-- A two-client hub: one in room 1, one unscoped, both with spare queue
capacity. -/
def cB1 : Client := { cid := 1, userID := 5, roomID := some 1 }

def cB2 : Client := { cid := 2, userID := 6, roomID := none }

def hB5 : Hub :=
  { clients := [cB1, cB2], users := [(5, cB1), (6, cB2)], rooms := [(1, [cB1])],
    chans := [(1, freshChan 4), (2, freshChan 4)] }

/-- A single-user hub for the unicast witness. -/
def cW6 : Client := { cid := 1, userID := 5, roomID := none }

def hW6 : Hub :=
  { clients := [cW6], users := [(5, cW6)], rooms := [], chans := [(1, freshChan 4)] }

def mW6 : Bytes := .raw "payload"

/-- A database environment knowing user 1 and room 2, with no memberships. -/
def envW : DBEnv :=
  { userExists := fun u => decide (u = 1), roomExists := fun r => decide (r = 2),
    isMember := fun _ _ => false }

def reqW : WSRequest := { user_id := .val 1, room_id := .val 2 }

/-- A registered room-3 client and the state its unregistration produces. -/
def cW8 : Client := { cid := 1, userID := 7, roomID := some 3 }

def hW8 : Hub :=
  { clients := [cW8], users := [(7, cW8)], rooms := [(3, [cW8])],
    chans := [(1, freshChan 2)] }

def hW8a : Hub :=
  { clients := [], users := [], rooms := [],
    chans := [(1, { buf := [], closed := true, cap := 2 })] }

/-! ## Association-list lemmas -/

theorem alookup_eq_none {κ β : Type} [DecidableEq κ] {l : List (κ × β)} {k : κ} :
    alookup l k = none ↔ ∀ p ∈ l, p.1 ≠ k := by
  induction l with
  | nil => simp [alookup]
  | cons p ps ih =>
    by_cases hp : p.1 = k <;> simp [alookup, hp, ih]

theorem alookup_mem {κ β : Type} [DecidableEq κ] {l : List (κ × β)} {k : κ} {v : β}
    (h : alookup l k = some v) : (k, v) ∈ l := by
  induction l with
  | nil => simp [alookup] at h
  | cons p ps ih =>
    rcases p with ⟨a, b⟩
    by_cases hp : a = k
    · simp [alookup, hp] at h
      subst hp
      subst h
      exact List.mem_cons_self _ _
    · simp [alookup, hp] at h
      exact List.mem_cons_of_mem _ (ih h)

theorem alookup_of_mem_nodup {κ β : Type} [DecidableEq κ] {l : List (κ × β)} {p : κ × β}
    (hmem : p ∈ l) (hnd : (l.map Prod.fst).Nodup) : alookup l p.1 = some p.2 := by
  induction l with
  | nil => simp at hmem
  | cons q qs ih =>
    simp only [List.map_cons, List.nodup_cons] at hnd
    rcases List.mem_cons.1 hmem with h | h
    · subst h; simp [alookup]
    · have hne : q.1 ≠ p.1 := by
        intro he
        exact hnd.1 (he ▸ List.mem_map_of_mem Prod.fst h)
      simp [alookup, hne, ih h hnd.2]

theorem mem_aerase {κ β : Type} [DecidableEq κ] {l : List (κ × β)} {k : κ} {p : κ × β} :
    p ∈ aerase l k ↔ p ∈ l ∧ p.1 ≠ k := by
  simp [aerase, List.mem_filter]

theorem alookup_aerase {κ β : Type} [DecidableEq κ] (l : List (κ × β)) (k k' : κ) :
    alookup (aerase l k) k' = if k' = k then none else alookup l k' := by
  induction l with
  | nil => simp [aerase, alookup]
  | cons p ps ih =>
    by_cases hp : p.1 = k
    · have he : aerase (p :: ps) k = aerase ps k := by
        simp [aerase, List.filter_cons, hp]
      rw [he, ih]
      by_cases hk : k' = k
      · simp [hk]
      · have hpk' : p.1 ≠ k' := fun he2 => hk (he2.symm.trans hp)
        simp [hk, alookup, hpk']
    · have he : aerase (p :: ps) k = p :: aerase ps k := by
        simp [aerase, List.filter_cons, hp]
      rw [he]
      by_cases hpk' : p.1 = k'
      · have hk : ¬k' = k := fun h2 => hp (hpk'.trans h2)
        simp [alookup, hpk', hk]
      · simp [alookup, hpk', ih]

theorem alookup_append {κ β : Type} [DecidableEq κ] (l l' : List (κ × β)) (k : κ) :
    alookup (l ++ l') k = (alookup l k).orElse (fun _ => alookup l' k) := by
  induction l with
  | nil => simp [alookup]
  | cons p ps ih =>
    by_cases hp : p.1 = k <;> simp [alookup, hp, ih]

theorem alookup_upsert {κ β : Type} [DecidableEq κ] (l : List (κ × β)) (k k' : κ) (v : β) :
    alookup (upsert l k v) k' = if k' = k then some v else alookup l k' := by
  rw [upsert, alookup_append, alookup_aerase]
  by_cases hk : k' = k
  · simp [hk, alookup]
  · simp only [if_neg hk]
    cases h : alookup l k' <;> simp [alookup, Option.orElse, Ne.symm hk]

theorem aerase_keys_nodup {κ β : Type} [DecidableEq κ] {l : List (κ × β)} (k : κ)
    (h : (l.map Prod.fst).Nodup) : ((aerase l k).map Prod.fst).Nodup := by
  have hs : List.Sublist ((aerase l k).map Prod.fst) (l.map Prod.fst) :=
    List.Sublist.map Prod.fst (List.filter_sublist _)
  exact h.sublist hs

theorem upsert_keys_nodup {κ β : Type} [DecidableEq κ] {l : List (κ × β)} (k : κ) (v : β)
    (h : (l.map Prod.fst).Nodup) : ((upsert l k v).map Prod.fst).Nodup := by
  have h1 := aerase_keys_nodup (l := l) k h
  rw [upsert, List.map_append]
  refine List.Nodup.append h1 (by simp) ?_
  intro a ha hb
  simp only [List.map_cons, List.map_nil, List.mem_singleton] at hb
  subst hb
  rcases List.mem_map.1 ha with ⟨p, hp, hpk⟩
  exact (mem_aerase.1 hp).2 hpk

theorem mem_upsert {κ β : Type} [DecidableEq κ] {l : List (κ × β)} {k : κ} {v : β}
    {p : κ × β} : p ∈ upsert l k v ↔ (p ∈ l ∧ p.1 ≠ k) ∨ p = (k, v) := by
  simp [upsert, mem_aerase, List.mem_append]

theorem mem_setInsert {α : Type} [DecidableEq α] {l : List α} {c x : α} :
    x ∈ (if c ∈ l then l else l ++ [c]) ↔ x ∈ l ∨ x = c := by
  by_cases hc : c ∈ l
  · rw [if_pos hc]
    constructor
    · exact Or.inl
    · rintro (hx | rfl)
      · exact hx
      · exact hc
  · rw [if_neg hc]
    simp [List.mem_append]

theorem setInsert_nodup {α : Type} [DecidableEq α] {l : List α} {c : α}
    (h : l.Nodup) : (if c ∈ l then l else l ++ [c]).Nodup := by
  by_cases hc : c ∈ l
  · rwa [if_pos hc]
  · rw [if_neg hc]
    simp [List.nodup_append, h, hc]

theorem mem_filterNe {α : Type} [DecidableEq α] {l : List α} {c x : α} :
    x ∈ l.filter (fun y => !decide (y = c)) ↔ x ∈ l ∧ x ≠ c := by
  simp [List.mem_filter]

/-- In a well-formed consistent hub, distinct live clients own distinct
user ids (forced by `byUser` holding every live client under its own
user id key, with unique keys). -/
theorem userID_inj (h : Hub) (hwf : WF h) (hinv : Inv h) {x y : Client}
    (hx : x ∈ h.clients) (hy : y ∈ h.clients) (he : x.userID = y.userID) : x = y := by
  obtain ⟨hw1, hw2, -, -, -⟩ := hwf
  obtain ⟨hi1, -, -, -⟩ := hinv
  obtain ⟨px, hpx, hpx2⟩ := hi1 x hx
  obtain ⟨py, hpy, hpy2⟩ := hi1 y hy
  have hkx : px.1 = x.userID := by rw [hw1 px hpx, hpx2]
  have hky : py.1 = y.userID := by rw [hw1 py hpy, hpy2]
  have hpe : px = py :=
    List.inj_on_of_nodup_map hw2 hpx hpy (by rw [hkx, hky, he])
  rw [← hpx2, ← hpy2, hpe]

/-! ## Characterizations of the hub operations -/

theorem registerClient_clients (h : Hub) (c : Client) :
    (registerClient h c).clients =
      if c ∈ h.clients then h.clients else h.clients ++ [c] := by
  rcases hc : c.roomID with _ | r <;> simp [registerClient, hc]

theorem registerClient_users (h : Hub) (c : Client) :
    (registerClient h c).users = upsert h.users c.userID c := by
  rcases hc : c.roomID with _ | r <;> simp [registerClient, hc]

theorem registerClient_chans (h : Hub) (c : Client) :
    (registerClient h c).chans = h.chans := by
  rcases hc : c.roomID with _ | r <;> simp [registerClient, hc]

theorem registerClient_rooms_none (h : Hub) (c : Client) (hc : c.roomID = none) :
    (registerClient h c).rooms = h.rooms := by
  simp [registerClient, hc]

theorem registerClient_rooms_some (h : Hub) (c : Client) (r : Int) (hc : c.roomID = some r) :
    (registerClient h c).rooms =
      upsert h.rooms r
        (if c ∈ roomList h r then roomList h r else roomList h r ++ [c]) := by
  simp [registerClient, hc]

/-- What `unregisterClient` does to the three views when it actually
removes a live client. -/
theorem unregisterClient_spec (h : Hub) (c : Client) (h1 : Hub)
    (hc : c ∈ h.clients) (hcl : (getChan h c.cid).closed = false)
    (hu : unregisterClient h c = some h1) :
    h1.clients = h.clients.filter (fun x => !decide (x = c)) ∧
    h1.users = aerase h.users c.userID ∧
    h1.rooms = (match c.roomID with
      | none => h.rooms
      | some r =>
        match alookup h.rooms r with
        | none => h.rooms
        | some room =>
          if (room.filter (fun x => !decide (x = c))).isEmpty then aerase h.rooms r
          else upsert h.rooms r (room.filter (fun x => !decide (x = c)))) := by
  unfold unregisterClient at hu
  rw [if_pos hc, if_neg (by simp [hcl])] at hu
  simp only [setChan] at hu
  rcases hcr : c.roomID with _ | r
  · simp only [hcr, Option.some.injEq] at hu
    subst hu
    simp [hcr]
  · simp only [hcr] at hu
    rcases halo : alookup h.rooms r with _ | room
    · simp only [halo, Option.some.injEq] at hu
      subst hu
      simp [hcr, halo]
    · simp only [halo] at hu
      by_cases hemp : (room.filter (fun x => !decide (x = c))).isEmpty
      · rw [if_pos hemp] at hu
        simp only [Option.some.injEq] at hu
        subst hu
        simp [hcr, halo, hemp]
      · rw [if_neg hemp] at hu
        simp only [Option.some.injEq] at hu
        subst hu
        simp [hcr, halo, hemp]

theorem roomList_registerClient_none (h : Hub) (c : Client) (hc : c.roomID = none)
    (r' : Int) : roomList (registerClient h c) r' = roomList h r' := by
  rw [roomList, registerClient_rooms_none h c hc, roomList]

theorem roomList_registerClient_some (h : Hub) (c : Client) (r : Int)
    (hc : c.roomID = some r) (r' : Int) :
    roomList (registerClient h c) r' =
      if r' = r then (if c ∈ roomList h r then roomList h r else roomList h r ++ [c])
      else roomList h r' := by
  rw [roomList, registerClient_rooms_some h c r hc, alookup_upsert]
  by_cases hr : r' = r
  · simp [hr]
  · simp [hr, roomList]

/-- A member of `byRoom[r]` is room-scoped to `r` and live, in a
consistent hub. -/
theorem roomList_sound (h : Hub) (hinv : Inv h) {r : Int} {x : Client}
    (hx : x ∈ roomList h r) : x.roomID = some r ∧ x ∈ h.clients := by
  rw [roomList] at hx
  rcases halo : alookup h.rooms r with _ | room
  · rw [halo] at hx
    simp at hx
  · rw [halo] at hx
    simp at hx
    exact hinv.2.2.1 (r, room) (alookup_mem halo) x hx

theorem registerClient_WF (h : Hub) (c : Client) (hwf : WF h) :
    WF (registerClient h c) := by
  obtain ⟨hw1, hw2, hw3, hw4, hw5⟩ := hwf
  refine ⟨?_, ?_, ?_, ?_, ?_⟩
  · intro p hp
    rw [registerClient_users] at hp
    rcases mem_upsert.1 hp with ⟨hpl, -⟩ | rfl
    · exact hw1 p hpl
    · rfl
  · rw [registerClient_users]
    exact upsert_keys_nodup _ _ hw2
  · rcases hcr : c.roomID with _ | r
    · rw [registerClient_rooms_none h c hcr]
      exact hw3
    · rw [registerClient_rooms_some h c r hcr]
      exact upsert_keys_nodup _ _ hw3
  · rw [registerClient_clients]
    exact setInsert_nodup hw4
  · intro p hp
    rcases hcr : c.roomID with _ | r
    · rw [registerClient_rooms_none h c hcr] at hp
      exact hw5 p hp
    · rw [registerClient_rooms_some h c r hcr] at hp
      rcases mem_upsert.1 hp with ⟨hpl, -⟩ | rfl
      · exact hw5 p hpl
      · refine setInsert_nodup ?_
        rw [roomList]
        rcases halo : alookup h.rooms r with _ | room
        · simp
        · simpa using hw5 (r, room) (alookup_mem halo)

theorem toList_mem_eq {α : Type} {o : Option α} {r : α} (ho : r ∈ o.toList) :
    o = some r := by
  rcases o with _ | a
  · simp at ho
  · simp at ho
    rw [ho]

theorem registerClient_Inv (h : Hub) (c : Client) (hwf : WF h) (hinv : Inv h)
    (hfresh : alookup h.users c.userID = none ∨ alookup h.users c.userID = some c) :
    Inv (registerClient h c) := by
  obtain ⟨hi1, hi2, hi3, hi4⟩ := hinv
  refine ⟨?_, ?_, ?_, ?_⟩
  · intro x hx
    rw [registerClient_clients] at hx
    rw [registerClient_users]
    rcases mem_setInsert.1 hx with hx | he
    · obtain ⟨p, hp, hp2⟩ := hi1 x hx
      by_cases hk : p.1 = c.userID
      · have hlk : alookup h.users p.1 = some p.2 := alookup_of_mem_nodup hp hwf.2.1
        rw [hk] at hlk
        rcases hfresh with hf | hf
        · rw [hf] at hlk
          cases hlk
        · rw [hf] at hlk
          have hpc : p.2 = c := (Option.some.inj hlk).symm
          exact ⟨(c.userID, c), mem_upsert.2 (Or.inr rfl), hpc ▸ hp2⟩
      · exact ⟨p, mem_upsert.2 (Or.inl ⟨hp, hk⟩), hp2⟩
    · exact ⟨(c.userID, c), mem_upsert.2 (Or.inr rfl), he.symm⟩
  · intro p hp
    rw [registerClient_users] at hp
    rw [registerClient_clients]
    rcases mem_upsert.1 hp with ⟨hpl, -⟩ | rfl
    · exact mem_setInsert.2 (Or.inl (hi2 p hpl))
    · exact mem_setInsert.2 (Or.inr rfl)
  · intro p hp x hxp
    rw [registerClient_clients]
    rcases hcr : c.roomID with _ | r
    · rw [registerClient_rooms_none h c hcr] at hp
      obtain ⟨hx1, hx2⟩ := hi3 p hp x hxp
      exact ⟨hx1, mem_setInsert.2 (Or.inl hx2)⟩
    · rw [registerClient_rooms_some h c r hcr] at hp
      rcases mem_upsert.1 hp with ⟨hpl, -⟩ | rfl
      · obtain ⟨hx1, hx2⟩ := hi3 p hpl x hxp
        exact ⟨hx1, mem_setInsert.2 (Or.inl hx2)⟩
      · rcases mem_setInsert.1 hxp with hxr | he
        · obtain ⟨hx1, hx2⟩ := roomList_sound h ⟨hi1, hi2, hi3, hi4⟩ hxr
          exact ⟨hx1, mem_setInsert.2 (Or.inl hx2)⟩
        · exact ⟨by rw [he]; exact hcr, mem_setInsert.2 (Or.inr he)⟩
  · intro x hx r' hr'
    rw [registerClient_clients] at hx
    have hxr : x.roomID = some r' := toList_mem_eq hr'
    rcases hcr : c.roomID with _ | r
    · rw [roomList_registerClient_none h c hcr]
      rcases mem_setInsert.1 hx with hx | he
      · exact hi4 x hx r' hr'
      · rw [he, hcr] at hxr
        cases hxr
    · rw [roomList_registerClient_some h c r hcr]
      rcases mem_setInsert.1 hx with hx | he
      · have hold := hi4 x hx r' hr'
        by_cases hrr : r' = r
        · subst hrr
          rw [if_pos rfl]
          exact mem_setInsert.2 (Or.inl hold)
        · rw [if_neg hrr]
          exact hold
      · have hrr : r' = r := by
          rw [he, hcr] at hxr
          exact (Option.some.inj hxr).symm
        rw [if_pos hrr]
        exact mem_setInsert.2 (Or.inr he)

theorem unregisterClient_not_mem (h : Hub) (c : Client) (hc : c ∉ h.clients) :
    unregisterClient h c = some h := by
  unfold unregisterClient
  rw [if_neg hc]

theorem unregisterClient_WF_Inv (h : Hub) (c : Client) (h1 : Hub)
    (hwf : WF h) (hinv : Inv h) (hu : unregisterClient h c = some h1) :
    WF h1 ∧ Inv h1 := by
  by_cases hc : c ∈ h.clients
  case neg =>
    rw [unregisterClient_not_mem h c hc] at hu
    injection hu with hu
    subst hu
    exact ⟨hwf, hinv⟩
  case pos =>
  by_cases hcl : (getChan h c.cid).closed = true
  · unfold unregisterClient at hu
    rw [if_pos hc, if_pos hcl] at hu
    cases hu
  · have hclf : (getChan h c.cid).closed = false := by
      revert hcl
      cases (getChan h c.cid).closed <;> simp
    obtain ⟨hcs, hus, hrs⟩ := unregisterClient_spec h c h1 hc hclf hu
    obtain ⟨hw1, hw2, hw3, hw4, hw5⟩ := hwf
    obtain ⟨hi1, hi2, hi3, hi4⟩ := hinv
    -- facts reused below
    have hmemc : ∀ x, x ∈ h1.clients ↔ x ∈ h.clients ∧ x ≠ c := by
      intro x
      rw [hcs]
      exact mem_filterNe
    have huser : ∀ p, p ∈ h1.users ↔ p ∈ h.users ∧ p.1 ≠ c.userID := by
      intro p
      rw [hus]
      exact mem_aerase
    have hval_ne : ∀ p ∈ h.users, p.1 ≠ c.userID → p.2 ≠ c := by
      intro p hp hk he
      exact hk (by rw [hw1 p hp, he])
    -- a room entry of h1 and its members, by cases on the room update
    have hroom_cases :
        (∀ p ∈ h1.rooms, ∃ q ∈ h.rooms, p.1 = q.1 ∧
          (p.2 = q.2 ∨ p.2 = q.2.filter (fun x => !decide (x = c)))) := by
      intro p hp
      rcases hcr : c.roomID with _ | r
      · rw [hrs] at hp
        simp only [hcr] at hp
        exact ⟨p, hp, rfl, Or.inl rfl⟩
      · rw [hrs] at hp
        simp only [hcr] at hp
        rcases halo : alookup h.rooms r with _ | room
        · simp only [halo] at hp
          exact ⟨p, hp, rfl, Or.inl rfl⟩
        · simp only [halo] at hp
          by_cases hemp : (room.filter (fun x => !decide (x = c))).isEmpty
          · rw [if_pos hemp] at hp
            exact ⟨p, (mem_aerase.1 hp).1, rfl, Or.inl rfl⟩
          · rw [if_neg hemp] at hp
            rcases mem_upsert.1 hp with ⟨hpl, -⟩ | he
            · exact ⟨p, hpl, rfl, Or.inl rfl⟩
            · refine ⟨(r, room), alookup_mem halo, ?_, Or.inr ?_⟩ <;> rw [he]
      -- members of rooms of `h` never equal `c` unless scoped to c's room
    refine ⟨⟨?_, ?_, ?_, ?_, ?_⟩, ?_, ?_, ?_, ?_⟩
    · -- WF: users keys name user ids
      intro p hp
      exact hw1 p ((huser p).1 hp).1
    · -- WF: users keys nodup
      rw [hus]
      exact aerase_keys_nodup _ hw2
    · -- WF: rooms keys nodup
      rcases hcr : c.roomID with _ | r
      · rw [hrs]
        simp only [hcr]
        exact hw3
      · rw [hrs]
        simp only [hcr]
        rcases halo : alookup h.rooms r with _ | room
        · simp only [halo]
          exact hw3
        · simp only [halo]
          by_cases hemp : (room.filter (fun x => !decide (x = c))).isEmpty
          · rw [if_pos hemp]
            exact aerase_keys_nodup _ hw3
          · rw [if_neg hemp]
            exact upsert_keys_nodup _ _ hw3
    · -- WF: clients nodup
      rw [hcs]
      exact hw4.filter _
    · -- WF: room member lists nodup
      intro p hp
      obtain ⟨q, hq, -, hq2⟩ := hroom_cases p hp
      rcases hq2 with hq2 | hq2 <;> rw [hq2]
      · exact hw5 q hq
      · exact (hw5 q hq).filter _
    · -- Inv: every live client appears in byUser
      intro x hx
      obtain ⟨hxh, hxc⟩ := (hmemc x).1 hx
      obtain ⟨p, hp, hp2⟩ := hi1 x hxh
      refine ⟨p, (huser p).2 ⟨hp, ?_⟩, hp2⟩
      intro hk
      have hux : x.userID = c.userID := by
        rw [← hp2, ← hw1 p hp]
        exact hk
      exact hxc (userID_inj h ⟨hw1, hw2, hw3, hw4, hw5⟩ ⟨hi1, hi2, hi3, hi4⟩ hxh hc hux)
    · -- Inv: byUser values are live
      intro p hp
      obtain ⟨hph, hpk⟩ := (huser p).1 hp
      exact (hmemc p.2).2 ⟨hi2 p hph, hval_ne p hph hpk⟩
    · -- Inv: room members are scoped and live
      intro p hp x hxp
      obtain ⟨q, hq, hq1, hq2⟩ := hroom_cases p hp
      have hxq : x ∈ q.2 ∧ (p.2 = q.2 → True) := ⟨by
        rcases hq2 with hq2 | hq2
        · rw [← hq2]; exact hxp
        · rw [hq2] at hxp; exact (mem_filterNe.1 hxp).1, fun _ => trivial⟩
      obtain ⟨hxid, hxh⟩ := hi3 q hq x hxq.1
      refine ⟨by rw [hq1]; exact hxid, (hmemc x).2 ⟨hxh, ?_⟩⟩
      -- x ≠ c
      intro hexc
      subst hexc
      -- then x's room is q.1 and x is scoped there; case on the update shape
      rcases hq2 with hq2 | hq2
      · -- the entry was untouched: impossible when x = c, shown per room case
        rcases hcr : x.roomID with _ | r
        · rw [hcr] at hxid
          cases hxid
        · -- c is scoped to r; the entry with key q.1 = r was either removed,
          -- filtered, or absent
          have hq1r : q.1 = r := by
            rw [hcr] at hxid
            exact (Option.some.inj hxid).symm
          rw [hrs] at hp
          simp only [hcr] at hp
          rcases halo : alookup h.rooms r with _ | room
          · -- no entry for r in h, yet q has key r
            have : alookup h.rooms q.1 = some q.2 := alookup_of_mem_nodup hq hw3
            rw [hq1r] at this
            rw [halo] at this
            cases this
          · simp only [halo] at hp
            by_cases hemp : (room.filter (fun y => !decide (y = x))).isEmpty
            · rw [if_pos hemp] at hp
              have := (mem_aerase.1 hp).2
              rw [hq1] at this
              exact this hq1r
            · rw [if_neg hemp] at hp
              rcases mem_upsert.1 hp with ⟨-, hpk⟩ | hpe
              · rw [hq1] at hpk
                exact hpk hq1r
              · -- p is the filtered entry, contradicting p.2 = q.2 ∋ x...
                -- p.2 = room.filter (≠ x) cannot contain x
                rw [hpe] at hxp
                simp [mem_filterNe] at hxp
      · -- p.2 is the filtered list: x = c cannot be a member
        rw [hq2] at hxp
        exact (mem_filterNe.1 hxp).2 rfl
    · -- Inv: every scoped live client is in its room's member set
      intro x hx r' hr'
      obtain ⟨hxh, hxc⟩ := (hmemc x).1 hx
      have hold := hi4 x hxh r' hr'
      have hxid : x.roomID = some r' := toList_mem_eq hr'
      rcases hcr : c.roomID with _ | r
      · rw [roomList, hrs]
        simp only [hcr]
        rw [← roomList]
        exact hold
      · rw [roomList, hrs]
        simp only [hcr]
        rcases halo : alookup h.rooms r with _ | room
        · simp only [halo]
          rw [← roomList]
          exact hold
        · simp only [halo]
          by_cases hemp : (room.filter (fun y => !decide (y = c))).isEmpty
          · rw [if_pos hemp, alookup_aerase]
            by_cases hrr : r' = r
            · -- x would be a surviving member of the filtered room: contradiction
              exfalso
              rw [hrr, roomList, halo] at hold
              simp at hold
              have hxf : x ∈ room.filter (fun y => !decide (y = c)) :=
                mem_filterNe.2 ⟨hold, hxc⟩
              rw [List.isEmpty_iff] at hemp
              rw [hemp] at hxf
              cases hxf
            · rw [if_neg hrr, ← roomList]
              exact hold
          · rw [if_neg hemp, alookup_upsert]
            by_cases hrr : r' = r
            · rw [if_pos hrr]
              simp only [Option.getD_some]
              rw [hrr, roomList, halo] at hold
              simp at hold
              exact mem_filterNe.2 ⟨hold, hxc⟩
            · rw [if_neg hrr, ← roomList]
              exact hold

theorem getChan_setChan (h : Hub) (n : Nat) (ch : Chan) :
    getChan (setChan h n ch) n = ch := by
  rw [getChan, setChan]
  simp [alookup_upsert]

theorem getChan_setChan_ne (h : Hub) (n n' : Nat) (ch : Chan) (hne : n' ≠ n) :
    getChan (setChan h n ch) n' = getChan h n' := by
  rw [getChan, setChan]
  simp only [alookup_upsert, if_neg hne]
  rw [getChan]

/-- The room-broadcast loop never touches `Users`. -/
theorem bcastLoop_users (rid : Int) (m : Bytes) :
    ∀ (cs : List Client) (h h1 : Hub),
      bcastLoop rid m cs h = some h1 → h1.users = h.users := by
  intro cs
  induction cs with
  | nil =>
    intro h h1 hb
    rw [bcastLoop] at hb
    injection hb with hb
    rw [hb]
  | cons c rest ih =>
    intro h h1 hb
    rw [bcastLoop] at hb
    rcases hts : chanTrySend (getChan h c.cid) m with _ | ch | _
    · simp only [hts] at hb
      cases hb
    · simp only [hts] at hb
      rw [ih _ _ hb]
      rfl
    · simp only [hts] at hb
      rw [ih _ _ hb]
      rfl

theorem broadcastToRoom_users (h : Hub) (rid : Int) (m : Bytes) (h1 : Hub)
    (hb : broadcastToRoom h rid m = some h1) : h1.users = h.users := by
  unfold broadcastToRoom at hb
  rcases halo : alookup h.rooms rid with _ | room
  · simp only [halo] at hb
    injection hb with hb
    rw [hb]
  · simp only [halo] at hb
    exact bcastLoop_users rid m room h h1 hb

theorem sendPrivateMessage_rooms (h : Hub) (u : Int) (m : Bytes) (h1 : Hub)
    (hs : sendPrivateMessage h u m = some h1) : h1.rooms = h.rooms := by
  unfold sendPrivateMessage at hs
  rcases hlu : alookup h.users u with _ | c
  · simp only [hlu] at hs
    injection hs with hs
    rw [hs]
  · simp only [hlu] at hs
    rcases hts : chanTrySend (getChan h c.cid) m with _ | ch | _
    · simp only [hts] at hs
      cases hs
    · simp only [hts] at hs
      injection hs with hs
      rw [← hs]
      rfl
    · simp only [hts] at hs
      injection hs with hs
      rw [← hs]
      rfl

theorem chanTrySend_sent (ch : Chan) (m : Bytes) (hcl : ch.closed = false)
    (hlt : ch.buf.length < ch.cap) :
    chanTrySend ch m = .sent { ch with buf := ch.buf ++ [m] } := by
  unfold chanTrySend
  rw [if_neg (by simp [hcl]), if_pos hlt]

theorem chanTrySend_full (ch : Chan) (m : Bytes) (hcl : ch.closed = false)
    (hlt : ¬ch.buf.length < ch.cap) :
    chanTrySend ch m = .full := by
  unfold chanTrySend
  rw [if_neg (by simp [hcl]), if_neg hlt]

/-! ## Claim theorems -/

/-- C10: a byte sequence that does not unmarshal as a `WSMessage` envelope
is dropped by `broadcastMessage`: no connection receives it and the hub
state (all three views and every queue) is left unchanged. -/
theorem broadcast_unparseable_noop (h : Hub) (s : String) :
    broadcastMessage h (Bytes.raw s) = some h := rfl

/-- C8: unregistering a connection twice produces the same end state as
unregistering it once; the second call never errors and is a complete
no-op (in particular it does not close the queue a second time). -/
theorem unregister_idempotent (h : Hub) (c : Client) (h1 : Hub)
    (hu : unregisterClient h c = some h1) : unregisterClient h1 c = some h1 := by
  by_cases hc : c ∈ h.clients
  · by_cases hcl : (getChan h c.cid).closed = true
    · unfold unregisterClient at hu
      rw [if_pos hc, if_pos hcl] at hu
      cases hu
    · have hclf : (getChan h c.cid).closed = false := by
        revert hcl
        cases (getChan h c.cid).closed <;> simp
      obtain ⟨hcs, -, -⟩ := unregisterClient_spec h c h1 hc hclf hu
      have hnc : c ∉ h1.clients := by
        rw [hcs]
        simp [List.mem_filter]
      exact unregisterClient_not_mem h1 c hnc
  · rw [unregisterClient_not_mem h c hc] at hu
    injection hu with hu
    subst hu
    exact unregisterClient_not_mem h c hc

theorem unregister_idempotent_witness :
    unregisterClient hW8 cW8 = some hW8a ∧ unregisterClient hW8a cW8 = some hW8a :=
  ⟨by decide, unregister_idempotent hW8 cW8 hW8a (by decide)⟩

/-- C6: `SendToUser(u, m)` enqueues `m` on the connection `byUser[u]` when
the entry exists (and the queue is live with spare capacity), changing
nothing else; when no entry exists for `u` it returns normally with the
hub state — routing table and every queue — completely unchanged. -/
theorem send_to_user_delivery_or_noop (h : Hub) (u : Int) (m : Bytes) :
    (alookup h.users u = none → sendToUser h u m = some h) ∧
    (∀ c, alookup h.users u = some c →
      (getChan h c.cid).closed = false →
      (getChan h c.cid).buf.length < (getChan h c.cid).cap →
      sendToUser h u m =
        some (setChan h c.cid
          { getChan h c.cid with buf := (getChan h c.cid).buf ++ [m] })) := by
  constructor
  · intro hlu
    unfold sendToUser
    simp only [hlu]
  · intro c hlu hcl hlt
    have hts := chanTrySend_sent (getChan h c.cid) m hcl hlt
    unfold sendToUser
    simp only [hlu, hts]

theorem send_to_user_delivery_or_noop_witness :
    (alookup hW6.users 9 = none ∧ sendToUser hW6 9 mW6 = some hW6) ∧
    sendToUser hW6 5 mW6 =
      some (setChan hW6 1 { getChan hW6 1 with buf := (getChan hW6 1).buf ++ [mW6] }) :=
  ⟨⟨by decide, (send_to_user_delivery_or_noop hW6 9 mW6).1 (by decide)⟩,
   (send_to_user_delivery_or_noop hW6 5 mW6).2
     { cid := 1, userID := 5, roomID := none } (by decide) (by decide) (by decide)⟩

/-- C9: after registering two connections for the same user and then
unregistering the stale first one, `byUser` has no entry for the user at
all even though the replacement connection is still live in
`allConnections` — the live connection becomes unreachable by
`SendToUser`. -/
theorem stale_unregister_orphans_live_user (u : Int) (n1 n2 : Nat) (hne : n1 ≠ n2) :
    (unregisterClient
        (registerClient
          (registerClient
            { hubInit with chans := [(n1, freshChan 256), (n2, freshChan 256)] }
            { cid := n1, userID := u, roomID := none })
          { cid := n2, userID := u, roomID := none })
        { cid := n1, userID := u, roomID := none }).map
      (fun h3 => (alookup h3.users u,
        decide (({ cid := n2, userID := u, roomID := none } : Client) ∈ h3.clients))) =
      some (none, true) := by
  simp [registerClient, unregisterClient, hubInit, upsert, aerase, alookup, getChan,
    setChan, freshChan, roomList, hne, Ne.symm hne, Client.mk.injEq, List.filter]

theorem stale_unregister_orphans_live_user_witness :
    (1 : Nat) ≠ 2 ∧
    (unregisterClient
        (registerClient
          (registerClient
            { hubInit with chans := [(1, freshChan 256), (2, freshChan 256)] }
            { cid := 1, userID := 7, roomID := none })
          { cid := 2, userID := 7, roomID := none })
        { cid := 1, userID := 7, roomID := none }).map
      (fun h3 => (alookup h3.users 7,
        decide (({ cid := 2, userID := 7, roomID := none } : Client) ∈ h3.clients))) =
      some (none, true) :=
  ⟨by decide, stale_unregister_orphans_live_user 7 1 2 (by decide)⟩

/-- C2: at the failing input — `Register(oldConn)` then `Register(newConn)`
for the same user id 7 — the code replaces the `byUser` entry but does not
tear the evicted connection down: `oldConn` stays in `allConnections` and
in `byRoom[3]`, and its queue is never closed, contradicting the claimed
evict-and-teardown (only the at-most-one-`byUser`-entry half holds). -/
theorem register_eviction_leaves_stale_connection :
    (oldConn ∈ (registerClient (registerClient hPair oldConn) newConn).clients) ∧
    (oldConn ∈ roomList (registerClient (registerClient hPair oldConn) newConn) 3) ∧
    ((getChan (registerClient (registerClient hPair oldConn) newConn)
        oldConn.cid).closed = false) ∧
    (alookup (registerClient (registerClient hPair oldConn) newConn).users 7 =
      some newConn) := by
  decide

/-- C3 counterexample: a connection with no bound room forwards an inbound
frame with the frame's own claimed `room_id` (42) preserved in the
re-broadcast envelope — the claimed value is not overwritten and steers
routing. -/
theorem unscoped_frame_keeps_claimed_room :
    cNoRoom.roomID = none ∧
    ((handleInboundFrame cNoRoom (Bytes.valid frameClaiming42)).bind
        jsonUnmarshal).map (fun w => w.room_id) = some 42 := by
  decide

/-- C3 amended: the re-broadcast envelope always carries the connection's
own user id, and carries the connection's room id when the connection is
room-scoped; a connection with no room id keeps the frame's claimed
`room_id` (only `user_id` is overwritten), and `broadcastMessage` routes a
valid envelope by exactly that `room_id` field. -/
theorem inbound_frame_stamping (c : Client) (w : WSMessage) (h : Hub) :
    (∀ r, c.roomID = some r →
      handleInboundFrame c (Bytes.valid w) =
        some (Bytes.valid { w with user_id := c.userID, room_id := r })) ∧
    (c.roomID = none →
      handleInboundFrame c (Bytes.valid w) =
        some (Bytes.valid { w with user_id := c.userID })) ∧
    broadcastMessage h (Bytes.valid w) = broadcastToRoom h w.room_id (Bytes.valid w) := by
  refine ⟨?_, ?_, rfl⟩
  · intro r hr
    unfold handleInboundFrame
    simp [jsonUnmarshal, jsonMarshal, hr]
  · intro hr
    unfold handleInboundFrame
    simp [jsonUnmarshal, jsonMarshal, hr]

theorem inbound_frame_stamping_witness :
    handleInboundFrame { cid := 3, userID := 9, roomID := some 8 }
        (Bytes.valid frameClaiming42) =
      some (Bytes.valid { frameClaiming42 with user_id := 9, room_id := 8 }) ∧
    handleInboundFrame { cid := 4, userID := 9, roomID := none }
        (Bytes.valid frameClaiming42) =
      some (Bytes.valid { frameClaiming42 with user_id := 9 }) :=
  ⟨(inbound_frame_stamping { cid := 3, userID := 9, roomID := some 8 }
      frameClaiming42 hubInit).1 8 rfl,
   (inbound_frame_stamping { cid := 4, userID := 9, roomID := none }
      frameClaiming42 hubInit).2.1 rfl⟩

/-- C4 counterexample: a slow consumer hit by `BroadcastToRoom` is removed
from `allConnections` and its room set and its queue is closed, but its
`byUser` entry survives — it is not removed from all three views as the
claim requires. -/
theorem broadcast_slow_consumer_keeps_byUser_entry :
    (broadcastToRoom hSlow 1 mNew).map (fun h1 =>
      (alookup h1.users 5, decide (slowClient ∈ h1.clients), roomList h1 1)) =
      some (some slowClient, false, []) := by
  decide

/-- One step of the broadcast loop whose head enqueue succeeds. -/
theorem bcastLoop_cons_sent (rid : Int) (m : Bytes) (c : Client) (rest : List Client)
    (h : Hub) (ch : Chan) (hts : chanTrySend (getChan h c.cid) m = .sent ch) :
    bcastLoop rid m (c :: rest) h = bcastLoop rid m rest (setChan h c.cid ch) := by
  rw [bcastLoop]
  simp only [hts]

/-- One step of the broadcast loop whose head hits a full queue: the head's
channel is closed and the head is deleted from `Clients` and the room's
member set, while `Users` is untouched. -/
theorem bcastLoop_cons_full (rid : Int) (m : Bytes) (c : Client) (rest : List Client)
    (h : Hub) (hts : chanTrySend (getChan h c.cid) m = .full) :
    bcastLoop rid m (c :: rest) h =
      bcastLoop rid m rest
        { clients := h.clients.filter (fun x => !decide (x = c)),
          users := h.users,
          rooms := upsert h.rooms rid ((roomList h rid).filter (fun x => !decide (x = c))),
          chans := upsert h.chans c.cid { getChan h c.cid with closed := true } } := by
  rw [bcastLoop]
  simp only [hts, setChan]
  rfl

/-- Running the broadcast loop over members with open channels always
completes, never touches `Users`, removes nothing that was already gone,
keeps closed channels closed, and tears every full-queued member down:
channel closed, deleted from `Clients` and from the room's member set. -/
theorem bcastLoop_slow_members (rid : Int) (m : Bytes) :
    ∀ (cs : List Client) (h : Hub),
      (cs.map Client.cid).Nodup →
      (∀ x ∈ cs, (getChan h x.cid).closed = false) →
      ∃ h1, bcastLoop rid m cs h = some h1 ∧
        h1.users = h.users ∧
        (∀ y : Client, y ∉ h.clients → y ∉ h1.clients) ∧
        (∀ y : Client, y ∉ roomList h rid → y ∉ roomList h1 rid) ∧
        (∀ n : Nat, (getChan h n).closed = true → (getChan h1 n).closed = true) ∧
        (∀ x ∈ cs, ¬(getChan h x.cid).buf.length < (getChan h x.cid).cap →
          (getChan h1 x.cid).closed = true ∧ x ∉ h1.clients ∧ x ∉ roomList h1 rid) := by
  intro cs
  induction cs with
  | nil =>
    intro h _ _
    exact ⟨h, rfl, rfl, fun y hy => hy, fun y hy => hy, fun n hn => hn, by simp⟩
  | cons c rest ih =>
    intro h hnd hop
    rw [List.map_cons, List.nodup_cons] at hnd
    obtain ⟨hcid, hndr⟩ := hnd
    have hcl := hop c (List.mem_cons_self c rest)
    by_cases hlt : (getChan h c.cid).buf.length < (getChan h c.cid).cap
    · -- head enqueued; recurse on the state with the appended buffer
      have hts := chanTrySend_sent (getChan h c.cid) m hcl hlt
      have hop' : ∀ x ∈ rest, (getChan (setChan h c.cid
          { getChan h c.cid with buf := (getChan h c.cid).buf ++ [m] }) x.cid).closed =
            false := by
        intro x hx
        have hne : x.cid ≠ c.cid := fun he => hcid (he ▸ List.mem_map_of_mem Client.cid hx)
        rw [getChan_setChan_ne _ _ _ _ hne]
        exact hop x (List.mem_cons_of_mem _ hx)
      obtain ⟨h1, hb, hu, hpc, hpr, hpcl, hfull⟩ := ih _ hndr hop'
      rw [bcastLoop_cons_sent rid m c rest h _ hts]
      refine ⟨h1, hb, by rw [hu]; rfl, fun y hy => hpc y hy, fun y hy => hpr y hy, ?_, ?_⟩
      · intro n hn
        apply hpcl
        by_cases hne : n = c.cid
        · rw [hne] at hn
          rw [hcl] at hn
          simp at hn
        · rw [getChan_setChan_ne _ _ _ _ hne]
          exact hn
      · intro x hx hxf
        rcases List.mem_cons.1 hx with he | hx
        · exfalso
          rw [he] at hxf
          exact hxf hlt
        · have hne : x.cid ≠ c.cid := fun he2 => hcid (he2 ▸ List.mem_map_of_mem Client.cid hx)
          refine hfull x hx ?_
          rw [getChan_setChan_ne _ _ _ _ hne]
          exact hxf
    · -- head is a slow consumer; recurse on the torn-down state
      have hts := chanTrySend_full (getChan h c.cid) m hcl hlt
      obtain ⟨hF, hFdef⟩ : ∃ hF : Hub,
          hF =
            { clients := h.clients.filter (fun x => !decide (x = c)),
              users := h.users,
              rooms := upsert h.rooms rid ((roomList h rid).filter (fun x => !decide (x = c))),
              chans := upsert h.chans c.cid { getChan h c.cid with closed := true } } :=
        ⟨_, rfl⟩
      have hgF : ∀ n, getChan hF n =
          if n = c.cid then { getChan h c.cid with closed := true } else getChan h n := by
        intro n
        simp only [hFdef, getChan, alookup_upsert]
        by_cases hne : n = c.cid
        · simp [hne]
        · simp [hne]
      have hrF : roomList hF rid = (roomList h rid).filter (fun x => !decide (x = c)) := by
        simp only [hFdef, roomList, alookup_upsert]
        simp
      have hop' : ∀ x ∈ rest, (getChan hF x.cid).closed = false := by
        intro x hx
        have hne : x.cid ≠ c.cid := fun he => hcid (he ▸ List.mem_map_of_mem Client.cid hx)
        rw [hgF x.cid, if_neg hne]
        exact hop x (List.mem_cons_of_mem _ hx)
      obtain ⟨h1, hb, hu, hpc, hpr, hpcl, hfull⟩ := ih hF hndr hop'
      rw [bcastLoop_cons_full rid m c rest h hts, ← hFdef]
      refine ⟨h1, hb, by rw [hu, hFdef], ?_, ?_, ?_, ?_⟩
      · intro y hy
        refine hpc y ?_
        intro hyF
        simp only [hFdef, List.mem_filter] at hyF
        exact hy hyF.1
      · intro y hy
        refine hpr y ?_
        intro hyF
        rw [hrF, List.mem_filter] at hyF
        exact hy hyF.1
      · intro n hn
        apply hpcl
        rw [hgF n]
        by_cases hne : n = c.cid
        · rw [if_pos hne]
        · rw [if_neg hne]
          exact hn
      · intro x hx hxf
        rcases List.mem_cons.1 hx with he | hx
        · -- x = c: torn down now, and the teardown survives the rest of the loop
          subst he
          refine ⟨?_, ?_, ?_⟩
          · apply hpcl
            rw [hgF x.cid, if_pos rfl]
          · refine hpc x ?_
            intro hyF
            simp only [hFdef, List.mem_filter] at hyF
            simp at hyF
          · refine hpr x ?_
            intro hyF
            rw [hrF, List.mem_filter] at hyF
            simp at hyF
        · have hne : x.cid ≠ c.cid := fun he2 => hcid (he2 ▸ List.mem_map_of_mem Client.cid hx)
          refine hfull x hx ?_
          rw [hgF x.cid, if_neg hne]
          exact hxf

/-- C4 amended: an enqueue attempt on a full queue closes the queue, but
the removal is per-path rather than from all three views: `BroadcastToRoom`
closes the slow member's queue and removes it from `allConnections` and the
room's member set but never touches `byUser` (the stale entry survives);
`SendPrivateMessage` closes the queue and removes the connection from
`allConnections` and `byUser` but never touches `byRoom`; only `SendToUser`
removes the slow consumer from `allConnections`, `byUser` and its room's
member set in one call. -/
theorem slow_consumer_removal_per_path :
    (∀ (h : Hub) (rid : Int) (c : Client) (m : Bytes),
      c ∈ roomList h rid →
      ((roomList h rid).map Client.cid).Nodup →
      (∀ x ∈ roomList h rid, (getChan h x.cid).closed = false) →
      ¬(getChan h c.cid).buf.length < (getChan h c.cid).cap →
      ∃ h1, broadcastToRoom h rid m = some h1 ∧
        (getChan h1 c.cid).closed = true ∧
        c ∉ h1.clients ∧
        c ∉ roomList h1 rid ∧
        h1.users = h.users) ∧
    (∀ (h : Hub) (u : Int) (c : Client) (m : Bytes),
      alookup h.users u = some c →
      (getChan h c.cid).closed = false →
      ¬(getChan h c.cid).buf.length < (getChan h c.cid).cap →
      ∃ h1, sendPrivateMessage h u m = some h1 ∧
        (getChan h1 c.cid).closed = true ∧
        c ∉ h1.clients ∧
        alookup h1.users u = none ∧
        h1.rooms = h.rooms) ∧
    (∀ (h : Hub) (u : Int) (c : Client) (m : Bytes),
      alookup h.users u = some c →
      (getChan h c.cid).closed = false →
      ¬(getChan h c.cid).buf.length < (getChan h c.cid).cap →
      ∃ h1, sendToUser h u m = some h1 ∧
        (getChan h1 c.cid).closed = true ∧
        c ∉ h1.clients ∧
        alookup h1.users u = none ∧
        (∀ r, c.roomID = some r → c ∉ roomList h1 r)) := by
  refine ⟨?_, ?_, ?_⟩
  · -- BroadcastToRoom path
    intro h rid c m hcm hnd hop hxf
    rcases halo : alookup h.rooms rid with _ | room
    · rw [roomList, halo] at hcm
      simp at hcm
    · have hroom : roomList h rid = room := by
        rw [roomList, halo]
        rfl
      rw [hroom] at hnd hop hcm
      obtain ⟨h1, hb, hu, -, -, -, hfull⟩ := bcastLoop_slow_members rid m room h hnd hop
      obtain ⟨hclosed, hncl, hnr⟩ := hfull c hcm hxf
      refine ⟨h1, ?_, hclosed, hncl, hnr, hu⟩
      unfold broadcastToRoom
      simp only [halo]
      exact hb
  · -- SendPrivateMessage path
    intro h u c m hlu hcl hlt
    have hts := chanTrySend_full (getChan h c.cid) m hcl hlt
    unfold sendPrivateMessage
    simp only [hlu, hts, setChan]
    refine ⟨_, rfl, ?_, ?_, ?_, rfl⟩
    · simp [getChan, alookup_upsert]
    · simp [List.mem_filter]
    · simp [alookup_aerase]
  · -- SendToUser path
    intro h u c m hlu hcl hlt
    have hts := chanTrySend_full (getChan h c.cid) m hcl hlt
    unfold sendToUser
    simp only [hlu, hts, setChan]
    rcases hcr : c.roomID with _ | r
    · simp only [hcr]
      refine ⟨_, rfl, ?_, ?_, ?_, ?_⟩
      · simp [getChan, alookup_upsert]
      · simp [List.mem_filter]
      · simp [alookup_aerase]
      · intro r' hr'
        cases hr'
    · simp only [hcr]
      rcases halo : alookup h.rooms r with _ | room
      · simp only [halo]
        refine ⟨_, rfl, ?_, ?_, ?_, ?_⟩
        · simp [getChan, alookup_upsert]
        · simp [List.mem_filter]
        · simp [alookup_aerase]
        · intro r' hr'
          injection hr' with hr'
          subst hr'
          simp [roomList, halo]
      · simp only [halo]
        refine ⟨_, rfl, ?_, ?_, ?_, ?_⟩
        · simp [getChan, alookup_upsert]
        · simp [List.mem_filter]
        · simp [alookup_aerase]
        · intro r' hr'
          injection hr' with hr'
          subst hr'
          simp [roomList, alookup_upsert, List.mem_filter]

theorem slow_consumer_removal_per_path_witness :
    (slowClient ∈ roomList hSlow 1 ∧ alookup hSlow.users 5 = some slowClient ∧
      ¬(getChan hSlow slowClient.cid).buf.length < (getChan hSlow slowClient.cid).cap) ∧
    (∃ h1, broadcastToRoom hSlow 1 mNew = some h1 ∧
      (getChan h1 slowClient.cid).closed = true ∧
      slowClient ∉ h1.clients ∧
      slowClient ∉ roomList h1 1 ∧
      h1.users = hSlow.users) ∧
    (∃ h1, sendPrivateMessage hSlow 5 mNew = some h1 ∧
      (getChan h1 slowClient.cid).closed = true ∧
      slowClient ∉ h1.clients ∧
      alookup h1.users 5 = none ∧
      h1.rooms = hSlow.rooms) ∧
    (∃ h1, sendToUser hSlow 5 mNew = some h1 ∧
      (getChan h1 slowClient.cid).closed = true ∧
      slowClient ∉ h1.clients ∧
      alookup h1.users 5 = none ∧
      (∀ r, slowClient.roomID = some r → slowClient ∉ roomList h1 r)) :=
  ⟨⟨by decide, by decide, by decide⟩,
   slow_consumer_removal_per_path.1 hSlow 1 slowClient mNew
     (by decide) (by decide) (by decide) (by decide),
   slow_consumer_removal_per_path.2.1 hSlow 5 slowClient mNew
     (by decide) (by decide) (by decide),
   slow_consumer_removal_per_path.2.2 hSlow 5 slowClient mNew
     (by decide) (by decide) (by decide)⟩

/-- When every member's queue is open with spare capacity, the broadcast
loop enqueues `m` on every member, touches no other channel, and leaves
all three views unchanged. -/
theorem bcastLoop_all_enqueued (rid : Int) (m : Bytes) :
    ∀ (cs : List Client) (h : Hub),
      (cs.map Client.cid).Nodup →
      (∀ c ∈ cs, (getChan h c.cid).closed = false ∧
        (getChan h c.cid).buf.length < (getChan h c.cid).cap) →
      ∃ h1, bcastLoop rid m cs h = some h1 ∧
        (∀ c ∈ cs, getChan h1 c.cid =
          { getChan h c.cid with buf := (getChan h c.cid).buf ++ [m] }) ∧
        (∀ n, n ∉ cs.map Client.cid → getChan h1 n = getChan h n) ∧
        h1.clients = h.clients ∧ h1.users = h.users ∧ h1.rooms = h.rooms := by
  intro cs
  induction cs with
  | nil =>
    intro h _ _
    exact ⟨h, rfl, by simp, fun n _ => rfl, rfl, rfl, rfl⟩
  | cons c rest ih =>
    intro h hnd hok
    obtain ⟨hcl, hlt⟩ := hok c (List.mem_cons_self c rest)
    have hts := chanTrySend_sent (getChan h c.cid) m hcl hlt
    rw [List.map_cons, List.nodup_cons] at hnd
    obtain ⟨hcid, hndr⟩ := hnd
    have hok' : ∀ x ∈ rest,
        (getChan (setChan h c.cid
          { getChan h c.cid with buf := (getChan h c.cid).buf ++ [m] }) x.cid).closed = false ∧
        (getChan (setChan h c.cid
          { getChan h c.cid with buf := (getChan h c.cid).buf ++ [m] }) x.cid).buf.length <
          (getChan (setChan h c.cid
            { getChan h c.cid with buf := (getChan h c.cid).buf ++ [m] }) x.cid).cap := by
      intro x hx
      have hne : x.cid ≠ c.cid := fun he => hcid (he ▸ List.mem_map_of_mem Client.cid hx)
      rw [getChan_setChan_ne _ _ _ _ hne]
      exact hok x (List.mem_cons_of_mem _ hx)
    obtain ⟨h1, hb, hmem, hoth, hc1, hu1, hr1⟩ :=
      ih (setChan h c.cid { getChan h c.cid with buf := (getChan h c.cid).buf ++ [m] })
        hndr hok'
    refine ⟨h1, ?_, ?_, ?_, ?_, ?_, ?_⟩
    · rw [bcastLoop]
      simp only [hts]
      exact hb
    · intro x hx
      rcases List.mem_cons.1 hx with he | hx
    -- the freshly served head and the members served by the recursive call
      · rw [he]
        rw [hoth c.cid hcid, getChan_setChan]
      · have hne : x.cid ≠ c.cid := fun he2 => hcid (he2 ▸ List.mem_map_of_mem Client.cid hx)
        rw [hmem x hx, getChan_setChan_ne _ _ _ _ hne]
    · intro n hn
      rw [List.map_cons, List.mem_cons] at hn
      push_neg at hn
      rw [hoth n hn.2, getChan_setChan_ne _ _ _ _ hn.1]
    · rw [hc1]
      rfl
    · rw [hu1]
      rfl
    · rw [hr1]
      rfl

/-- C5: `BroadcastToRoom(r, m)` enqueues `m` on exactly the members of
`byRoom[r]` at call time (each with spare queue capacity): every member's
queue gets `m` appended, every other channel is untouched, and the three
views are unchanged, so connections in other rooms or with no room
receive nothing. -/
theorem broadcast_exact_room_delivery (h : Hub) (rid : Int) (m : Bytes)
    (hnd : ((roomList h rid).map Client.cid).Nodup)
    (hok : ∀ c ∈ roomList h rid, (getChan h c.cid).closed = false ∧
      (getChan h c.cid).buf.length < (getChan h c.cid).cap) :
    ∃ h1, broadcastToRoom h rid m = some h1 ∧
      (∀ c ∈ roomList h rid, (getChan h1 c.cid).buf = (getChan h c.cid).buf ++ [m]) ∧
      (∀ n, n ∉ (roomList h rid).map Client.cid → getChan h1 n = getChan h n) ∧
      h1.clients = h.clients ∧ h1.users = h.users ∧ h1.rooms = h.rooms := by
  rcases halo : alookup h.rooms rid with _ | room
  · refine ⟨h, ?_, ?_, fun n _ => rfl, rfl, rfl, rfl⟩
    · unfold broadcastToRoom
      simp only [halo]
    · intro c hc
      rw [roomList, halo] at hc
      simp at hc
  · have hroom : roomList h rid = room := by
      rw [roomList, halo]
      rfl
    rw [hroom] at hnd hok
    obtain ⟨h1, hb, hmem, hoth, hc1, hu1, hr1⟩ :=
      bcastLoop_all_enqueued rid m room h hnd hok
    refine ⟨h1, ?_, ?_, ?_, hc1, hu1, hr1⟩
    · unfold broadcastToRoom
      simp only [halo]
      exact hb
    · intro c hc
      rw [hroom] at hc
      rw [hmem c hc]
    · intro n hn
      rw [hroom] at hn
      exact hoth n hn

theorem broadcast_exact_room_delivery_witness :
    (((roomList hB5 1).map Client.cid).Nodup ∧
      ∀ c ∈ roomList hB5 1, (getChan hB5 c.cid).closed = false ∧
        (getChan hB5 c.cid).buf.length < (getChan hB5 c.cid).cap) ∧
    (∃ h1, broadcastToRoom hB5 1 mW6 = some h1 ∧
      (∀ c ∈ roomList hB5 1, (getChan h1 c.cid).buf = (getChan hB5 c.cid).buf ++ [mW6]) ∧
      (∀ n, n ∉ (roomList hB5 1).map Client.cid → getChan h1 n = getChan hB5 n) ∧
      h1.clients = hB5.clients ∧ h1.users = hB5.users ∧ h1.rooms = hB5.rooms) :=
  ⟨⟨by decide, by decide⟩,
   broadcast_exact_room_delivery hB5 1 mW6 (by decide) (by decide)⟩

/-- C1 counterexample: registering a second connection for a user id that
already has a live connection breaks the consistency invariant — the first
connection stays in `allConnections` but no longer appears in `byUser`. -/
theorem routing_views_consistency_fails_on_reregister :
    invAlong hubInit [Ev.reg cDup1, Ev.reg cDup2] = false ∧
    ¬Inv (registerClient (registerClient hubInit cDup1) cDup2) := by
  decide

/-- C1 amended: along every Register/Unregister trace from any consistent
well-formed state in which no Register targets a user id that already has
a different live connection, the three routing views are mutually
consistent after each completed call; a Register that replaces a live
connection of the same user breaks the invariant (see the
counterexample). -/
theorem routing_views_consistent_along_safe_traces (h : Hub) (es : List Ev)
    (hwf : WF h) (hinv : Inv h) (hg : goodTrace h es = true) :
    invAlong h es = true := by
  induction es generalizing h with
  | nil => rfl
  | cons e es ih =>
    cases e with
    | reg c =>
      rw [goodTrace, Bool.and_eq_true, decide_eq_true_iff] at hg
      obtain ⟨hfresh, hg⟩ := hg
      have hwf1 := registerClient_WF h c hwf
      have hinv1 := registerClient_Inv h c hwf hinv hfresh
      rw [invAlong]
      simp only [step]
      rw [Bool.and_eq_true, decide_eq_true_iff]
      exact ⟨hinv1, ih _ hwf1 hinv1 hg⟩
    | unreg c =>
      rw [goodTrace] at hg
      rw [invAlong]
      simp only [step]
      rcases hu : unregisterClient h c with _ | h1
      · simp only [hu]
      · simp only [hu] at hg ⊢
        obtain ⟨hwf1, hinv1⟩ := unregisterClient_WF_Inv h c h1 hwf hinv hu
        rw [Bool.and_eq_true, decide_eq_true_iff]
        exact ⟨hinv1, ih _ hwf1 hinv1 hg⟩

theorem routing_views_consistent_along_safe_traces_witness :
    (WF hPair ∧ Inv hPair ∧ goodTrace hPair esTr = true) ∧
    invAlong hPair esTr = true :=
  ⟨⟨by decide, by decide, by decide⟩,
   routing_views_consistent_along_safe_traces hPair esTr
     (by decide) (by decide) (by decide)⟩

/-- C7: admission fails with the user-not-found error when the user id is
unknown, then (when a room id is present) with the room-not-found error
when the room does not exist and the not-a-member error when the user is
not a member; and on every error the hub state is returned unchanged — no
connection is registered. -/
theorem admission_contract (env : DBEnv) (req : WSRequest) (h : Hub) (fresh : Nat) :
    (∀ uid, req.user_id = .val uid → env.userExists uid = false →
      handleWebSocket env req h fresh = (.error .unknownUser, h)) ∧
    (∀ uid rid, req.user_id = .val uid → env.userExists uid = true →
      req.room_id = .val rid → env.roomExists rid = false →
      handleWebSocket env req h fresh = (.error .unknownRoom, h)) ∧
    (∀ uid rid, req.user_id = .val uid → env.userExists uid = true →
      req.room_id = .val rid → env.roomExists rid = true → env.isMember rid uid = false →
      handleWebSocket env req h fresh = (.error .notAMember, h)) ∧
    (∀ e h', handleWebSocket env req h fresh = (.error e, h') → h' = h) := by
  refine ⟨?_, ?_, ?_, ?_⟩
  · intro uid h1 h2
    unfold handleWebSocket
    simp [h1, h2]
  · intro uid rid h1 h2 h3 h4
    unfold handleWebSocket
    simp [h1, h2, h3, h4]
  · intro uid rid h1 h2 h3 h4 h5
    unfold handleWebSocket
    simp [h1, h2, h3, h4, h5]
  · intro e h' he
    unfold handleWebSocket at he
    rcases hu : req.user_id with _ | _ | uid <;> simp only [hu] at he
    · cases he
      rfl
    · cases he
      rfl
    · by_cases hue : env.userExists uid = true
      · rw [if_pos hue] at he
        rcases hr : req.room_id with _ | _ | rid <;> simp only [hr] at he
        · injection he with he1 he2
          cases he1
        · cases he
          rfl
        · by_cases hre : env.roomExists rid = true
          · rw [if_pos hre] at he
            by_cases hm : env.isMember rid uid = true
            · rw [if_pos hm] at he
              injection he with he1 he2
              cases he1
            · rw [if_neg hm] at he
              cases he
              rfl
          · rw [if_neg hre] at he
            cases he
            rfl
      · rw [if_neg hue] at he
        cases he
        rfl

theorem admission_contract_witness :
    envW.userExists 1 = true ∧ envW.roomExists 2 = true ∧ envW.isMember 2 1 = false ∧
    handleWebSocket envW reqW hubInit 0 = (.error .notAMember, hubInit) :=
  ⟨by decide, by decide, by decide,
   (admission_contract envW reqW hubInit 0).2.2.1 1 2 rfl (by decide) rfl
     (by decide) (by decide)⟩

end CampusChat
